import Mathlib

/-!
A shallow embedding of `src/main.py` (`TodoistMetadataManager` and its batch
orchestration) and proofs about it.

Modelling conventions:
* Python strings are embedded as `List Char` (`PyStr`); the string helpers
  below embed the exact `str` operations the source uses.
* Timestamps (`datetime.now().isoformat()` values) are never inspected by the
  core, only stored and compared for equality, so they are embedded as opaque
  `Nat` values; a due date is embedded as its day offset from today.
* The external Todoist API is embedded by an explicit per-task environment
  recording what each external call would do (raise or succeed, and what the
  stored metadata comment holds); the YAML encode/decode pair is outside the
  core and is abstracted (see `MetaLookup`).
* Fallible code returns `Except Unit`; a caught exception never surfaces as
  `Except.error`, an uncaught one does.
-/

/-- A Python string, embedded as its list of characters. -/
abbrev PyStr := List Char

/-- Embeds Python `s.startswith(p)`. -/
def startsWith : PyStr → PyStr → Bool
  | _, [] => true
  | [], _ :: _ => false
  | c :: cs, p :: ps => c == p && startsWith cs ps

/-- Embeds Python `s.replace(m, '')` for a one-character pattern: every
occurrence of the character is removed. -/
def removeChar (m : Char) (s : PyStr) : PyStr :=
  s.filter (fun c => c != m)

/-- Embeds Python `s.split(sep)[0]` for a non-empty separator: the text before
the first occurrence of `sep`, or all of `s` when `sep` does not occur. -/
def beforeSep (sep : PyStr) : PyStr → PyStr
  | [] => []
  | c :: cs => if startsWith (c :: cs) sep then [] else c :: beforeSep sep cs

/-- Embeds Python `s.replace(pat, '')` for a non-empty multi-character
pattern: scan left to right, removing non-overlapping occurrences. The `Nat`
argument counts characters of a just-matched occurrence still to skip. -/
def removeSeqAux (pat : PyStr) : Nat → PyStr → PyStr
  | _, [] => []
  | Nat.succ k, _ :: cs => removeSeqAux pat k cs
  | 0, c :: cs =>
    if startsWith (c :: cs) pat then removeSeqAux pat (pat.length - 1) cs
    else c :: removeSeqAux pat 0 cs

/-- Embeds Python `s.replace(pat, '')` for a non-empty pattern. -/
def removeSeq (pat s : PyStr) : PyStr := removeSeqAux pat 0 s

/-- The per-task metadata record persisted inside a task comment
(`failures`, `successes`, `created`, `last_failed`, `last_completion`). -/
structure TaskMetadata where
  failures : Nat
  successes : Nat
  created : Nat
  last_failed : Option Nat
  last_completion : Option Nat
deriving Repr, DecidableEq

/-- The fallback record `get_metadata` builds when no stored record can be
read: zero counters and `created = now`. -/
def defaultMetadata (now : Nat) : TaskMetadata :=
  ⟨0, 0, now, none, none⟩

/-- A Todoist comment: identifier and content. -/
structure Comment where
  id : Nat
  content : PyStr
deriving Repr, DecidableEq

/-- Outcome of `api.get_comments` for a task: the call raises, or returns the
(already flattened) list of comments. -/
inductive CommentsResult where
  | apiError
  | ok (comments : List Comment)
deriving Repr, DecidableEq

/-- The `# METADATA` marker a metadata comment starts with. -/
def metaMarker : PyStr := "# METADATA".data

/-- The `# METADATA\n` header stripped before YAML decoding. -/
def metaHeader : PyStr := "# METADATA\n".data

/-- `find_metadata_comment`: the first comment whose content starts with
`# METADATA`; the surrounding try/except turns any lookup error into `None`. -/
def find_metadata_comment (r : CommentsResult) : Option Comment :=
  match r with
  | .apiError => none
  | .ok cs => cs.find? (fun c => startsWith c.content metaMarker)

/-- `get_metadata`: extract the metadata record from the task's comments. The
YAML decoder is outside the embedded core, so it is the parameter `parse`
(`parse s = none` embeds `yaml.safe_load` raising on `s`). A missing comment
or a decode failure falls back to the default record; neither is surfaced. -/
def get_metadata (parse : PyStr → Option TaskMetadata) (now : Nat)
    (r : CommentsResult) : TaskMetadata :=
  match find_metadata_comment r with
  | none => defaultMetadata now
  | some c =>
    match parse (removeSeq metaHeader c.content) with
    | some m => m
    | none => defaultMetadata now

/-- Summary of what `find_metadata_comment` plus the YAML decode yield for a
task: the lookup raised, no metadata comment exists, the comment is
undecodable, or a record was decoded. The stateful operations below run over
this summary, taking the YAML encode/decode round-trip as exact: persisting a
record yields a state that decodes back to that record. -/
inductive MetaLookup where
  | lookupError
  | noComment
  | unparsable
  | parsed (m : TaskMetadata)
deriving Repr, DecidableEq

/-- The `MetaLookup` summary of a concrete comment state under a decoder. -/
def lookupOf (parse : PyStr → Option TaskMetadata) (r : CommentsResult) :
    MetaLookup :=
  match find_metadata_comment r with
  | none =>
    match r with
    | .apiError => .lookupError
    | .ok _ => .noComment
  | some c =>
    match parse (removeSeq metaHeader c.content) with
    | some m => .parsed m
    | none => .unparsable

/-- `get_metadata` over the `MetaLookup` summary. -/
def getMetadataS (now : Nat) (st : MetaLookup) : TaskMetadata :=
  match st with
  | .parsed m => m
  | _ => defaultMetadata now

/-- The `updates` dict passed to `update_metadata`: `none` embeds an absent
key. `created` is never passed as an update by the source. -/
structure MetaUpdates where
  failures : Option Nat
  successes : Option Nat
  last_failed : Option Nat
  last_completion : Option Nat
deriving Repr, DecidableEq

/-- Embeds `metadata.update(updates)`: a field-level overwrite of the present
keys. -/
def dictUpdate (m : TaskMetadata) (u : MetaUpdates) : TaskMetadata :=
  ⟨u.failures.getD m.failures,
   u.successes.getD m.successes,
   m.created,
   (match u.last_failed with | some v => some v | none => m.last_failed),
   (match u.last_completion with | some v => some v | none => m.last_completion)⟩

/-- Per-task environment for one pass over a task: the stored metadata state
and whether each external call involved would succeed or raise. -/
structure TaskEnv where
  stored : MetaLookup
  getTaskOk : Bool
  persistOk : Bool
  updateOk : Bool
deriving Repr, DecidableEq

/-- `update_metadata`: load the current record, apply the updates dict,
persist the result through the comment interface, and return the merged
record. The persistence block sits in a try/except that only logs, so a
persist error leaves the stored state unchanged and still returns the merged
record; the `api.get_task` call before it is unguarded, so its error
propagates. Returns the merged record and the resulting stored state. -/
def update_metadata (now : Nat) (env : TaskEnv) (u : MetaUpdates) :
    Except Unit (TaskMetadata × MetaLookup) :=
  if env.getTaskOk then
    let m := dictUpdate (getMetadataS now env.stored) u
    Except.ok (m, if env.persistOk then MetaLookup.parsed m else env.stored)
  else Except.error ()

/-- `mark_failure`: read the record, increment `failures`, stamp
`last_failed`, persist via `update_metadata`, and return the new count. -/
def mark_failure (now : Nat) (env : TaskEnv) : Except Unit (Nat × MetaLookup) :=
  let failures := (getMetadataS now env.stored).failures + 1
  match update_metadata now env ⟨some failures, none, some now, none⟩ with
  | .ok (_, st) => .ok (failures, st)
  | .error e => .error e

/-- `calculate_delay_hours`: exponential backoff capped at one week. -/
def calculate_delay_hours (failures : Nat) : Nat :=
  min (24 * 2 ^ (failures - 1)) 168

/-- `get_success_ratio`: smoothed success-to-failure ratio of the record read
from the given state; Python's float division is embedded as exact `ℚ`. -/
def get_success_ratio (now : Nat) (st : MetaLookup) : ℚ :=
  let m := getMetadataS now st
  ((m.successes : ℚ) + 1) / ((m.failures : ℚ) + 1)

/-- The retry-marker character prepended for often-failed tasks. -/
def retryMarker : Char := '🔄'

/-- The `' (Failed'` separator before the failure-count suffix. -/
def failedSep : PyStr := " (Failed".data

/-- The content rewrite in `reschedule_task`: drop every retry-marker
character and anything from the first `' (Failed'` on, then put the marker
back when `failures >= 3` and append `' (Failed Nx)'` when `failures > 1`. -/
def rescheduleContent (content : PyStr) (failures : Nat) : PyStr :=
  (if failures ≥ 3 then [retryMarker] else []) ++
    beforeSep failedSep (removeChar retryMarker content) ++
    (if failures > 1 then " (Failed ".data ++ (toString failures).data ++ "x)".data
     else [])

/-- A Todoist task as the core reads it: identifier, content, priority. -/
structure TdTask where
  id : Nat
  content : PyStr
  priority : Nat
deriving Repr, DecidableEq

/-- One applied `api.update_task` call: the new due date as a day offset from
today (the source passes a date, time-of-day discarded), the failure count,
and the rewritten content. -/
structure Applied where
  taskId : Nat
  dueOffset : Nat
  failures : Nat
  content : PyStr
deriving Repr, DecidableEq

/-- `reschedule_task`: one `api.update_task` call. The call is not inside any
try/except, so an API error propagates to the caller. -/
def reschedule_task (t : TdTask) (updateOk : Bool) (dueOffset failures : Nat) :
    Except Unit Applied :=
  if updateOk then
    Except.ok ⟨t.id, dueOffset, failures, rescheduleContent t.content failures⟩
  else Except.error ()

/-- Everything the batch records about one marked regular task: the task, its
post-increment failure count, its ratio read after the mark, its backoff, the
fate of its coming `update_task` call, and its post-mark stored state. -/
structure RegData where
  task : TdTask
  failures : Nat
  ratio : ℚ
  delayHours : Nat
  updateOk : Bool
  store : MetaLookup
deriving DecidableEq

/-- Outcome of one batch pass: the `update_task` calls applied, the post-mark
stored metadata state of every marked task, and whether an uncaught exception
aborted the pass before the end. -/
structure BatchOutcome where
  applied : List Applied
  stores : List (Nat × MetaLookup)
  aborted : Bool
deriving DecidableEq

/-- The urgent loop of `batch_reschedule_overdue`: mark each high-priority
task failed and reschedule it to today (offset 0); an uncaught exception
leaves the rest of the loop unprocessed. -/
def runUrgent (now : Nat) :
    List (TdTask × TaskEnv) → List Applied × List (Nat × MetaLookup) × Bool
  | [] => ([], [], false)
  | (t, env) :: rest =>
    match mark_failure now env with
    | .error _ => ([], [], true)
    | .ok (f, st) =>
      match reschedule_task t env.updateOk 0 f with
      | .error _ => ([], [(t.id, st)], true)
      | .ok a =>
        let r := runUrgent now rest
        (a :: r.1, (t.id, st) :: r.2.1, r.2.2)

/-- The first regular loop of `batch_reschedule_overdue`: mark every regular
task failed and collect its data; the ratio is read after the mark, so it sees
the post-increment record when persistence succeeded. An uncaught exception
leaves the rest unmarked (and nothing is scheduled). -/
def markRegular (now : Nat) : List (TdTask × TaskEnv) → List RegData × Bool
  | [] => ([], false)
  | (t, env) :: rest =>
    match mark_failure now env with
    | .error _ => ([], true)
    | .ok (f, st) =>
      let r := markRegular now rest
      (⟨t, f, get_success_ratio now st, calculate_delay_hours f, env.updateOk, st⟩
        :: r.1, r.2)

/-- Stable insertion into a list sorted by ratio descending: `x` comes from
earlier in the original order than every listed element, so it goes after
exactly those of strictly larger ratio — the order Python's stable
`sort(key=..., reverse=True)` yields. -/
def insertDesc (x : RegData) : List RegData → List RegData
  | [] => [x]
  | y :: ys => if x.ratio < y.ratio then y :: insertDesc x ys else x :: y :: ys

/-- `task_data.sort(key=lambda x: x['success_ratio'], reverse=True)`. -/
def sortByRatioDesc : List RegData → List RegData
  | [] => []
  | x :: xs => insertDesc x (sortByRatioDesc xs)

/-- The spreading loop: walk the sorted regular tasks with zero-based index
`i`, assign day offset `max(delay_hours // 24, i)` and apply the update; an
uncaught `update_task` error skips the rest of the loop. -/
def spreadRegular (i : Nat) : List RegData → List Applied × Bool
  | [] => ([], false)
  | d :: ds =>
    match reschedule_task d.task d.updateOk (max (d.delayHours / 24) i) d.failures with
    | .error _ => ([], true)
    | .ok a =>
      let r := spreadRegular (i + 1) ds
      (a :: r.1, r.2)

/-- `batch_reschedule_overdue`: partition by priority (`>= 3` is urgent),
reschedule urgent tasks to today, then mark, rank, spread and apply the
regular tasks. An uncaught exception aborts the remainder of the batch;
`aborted` records that. -/
def batch_reschedule_overdue (now : Nat) (items : List (TdTask × TaskEnv)) :
    BatchOutcome :=
  let high := items.filter (fun p => p.1.priority ≥ 3)
  let regular := items.filter (fun p => p.1.priority < 3)
  match runUrgent now high with
  | (ha, hs, true) => ⟨ha, hs, true⟩
  | (ha, hs, false) =>
    match markRegular now regular with
    | (ds, true) => ⟨ha, hs ++ ds.map (fun d => (d.task.id, d.store)), true⟩
    | (ds, false) =>
      let r := spreadRegular 0 (sortByRatioDesc ds)
      ⟨ha ++ r.1, hs ++ ds.map (fun d => (d.task.id, d.store)), r.2⟩

/-- `track_completion`: a no-op for a task without `completed_at`; otherwise,
when the stored `last_completion` differs from the task's completion
timestamp, increment `successes` and record that timestamp. Returns the
resulting stored state. -/
def track_completion (now : Nat) (completedAt : Option Nat) (env : TaskEnv) :
    Except Unit MetaLookup :=
  match completedAt with
  | none => Except.ok env.stored
  | some ts =>
    let m := getMetadataS now env.stored
    if m.last_completion = some ts then Except.ok env.stored
    else
      match update_metadata now env ⟨none, some (m.successes + 1), none, some ts⟩ with
      | .ok (_, st) => .ok st
      | .error e => .error e

/-- One metadata-mutating operation, with its clock value and the fate of the
external calls it makes. -/
inductive MetaOp where
  | fail (now : Nat) (getTaskOk persistOk : Bool)
  | complete (now : Nat) (completedAt : Option Nat) (getTaskOk persistOk : Bool)
deriving Repr, DecidableEq

/-- The stored metadata state after running one operation on it (an uncaught
exception leaves the state unchanged, since it is raised before any write). -/
def stepStore (st : MetaLookup) : MetaOp → MetaLookup
  | .fail now gOk pOk =>
    match mark_failure now ⟨st, gOk, pOk, true⟩ with
    | .ok (_, st2) => st2
    | .error _ => st
  | .complete now c gOk pOk =>
    match track_completion now c ⟨st, gOk, pOk, true⟩ with
    | .ok st2 => st2
    | .error _ => st

/-- The `failures` counter a read of the given state yields. -/
def storedFailures (st : MetaLookup) : Nat := (getMetadataS 0 st).failures

/-- The `successes` counter a read of the given state yields. -/
def storedSuccesses (st : MetaLookup) : Nat := (getMetadataS 0 st).successes

/-- The record `mark_failure` writes: the read record with `failures`
incremented and `last_failed` stamped. -/
def markedRecord (now : Nat) (st : MetaLookup) : TaskMetadata :=
  dictUpdate (getMetadataS now st)
    ⟨some ((getMetadataS now st).failures + 1), none, some now, none⟩

lemma mark_failure_ok (now : Nat) (env : TaskEnv) (h : env.getTaskOk = true) :
    mark_failure now env = Except.ok ((getMetadataS now env.stored).failures + 1,
      if env.persistOk then MetaLookup.parsed (markedRecord now env.stored)
      else env.stored) := by
  simp [mark_failure, update_metadata, h, markedRecord]

lemma getMetadataS_counters (now : Nat) (st : MetaLookup) :
    (getMetadataS now st).failures = storedFailures st ∧
      (getMetadataS now st).successes = storedSuccesses st := by
  cases st <;> simp [getMetadataS, storedFailures, storedSuccesses, defaultMetadata]

lemma stepStore_fail_cases (now : Nat) (gOk pOk : Bool) (st : MetaLookup) :
    stepStore st (.fail now gOk pOk) = st ∨
      stepStore st (.fail now gOk pOk) = .parsed (markedRecord now st) := by
  cases gOk with
  | false => left; rfl
  | true =>
    cases pOk with
    | false => left; rfl
    | true => right; rfl

lemma stepStore_complete_cases (now ts : Nat) (gOk pOk : Bool) (st : MetaLookup) :
    stepStore st (.complete now (some ts) gOk pOk) = st ∨
      stepStore st (.complete now (some ts) gOk pOk) =
        .parsed (dictUpdate (getMetadataS now st)
          ⟨none, some ((getMetadataS now st).successes + 1), none, some ts⟩) := by
  by_cases heq : (getMetadataS now st).last_completion = some ts
  · left; simp [stepStore, track_completion, heq]
  · cases gOk with
    | false => left; simp [stepStore, track_completion, heq, update_metadata]
    | true =>
      cases pOk with
      | false => left; simp [stepStore, track_completion, heq, update_metadata]
      | true => right; simp [stepStore, track_completion, heq, update_metadata]

lemma stepStore_mono (st : MetaLookup) (op : MetaOp) :
    storedFailures st ≤ storedFailures (stepStore st op) ∧
      storedSuccesses st ≤ storedSuccesses (stepStore st op) := by
  have hc := getMetadataS_counters
  cases op with
  | fail now gOk pOk =>
    rcases stepStore_fail_cases now gOk pOk st with h | h <;> rw [h]
    · exact ⟨le_rfl, le_rfl⟩
    · constructor
      · show storedFailures st ≤ (markedRecord now st).failures
        have h2 : (markedRecord now st).failures = (getMetadataS now st).failures + 1 := rfl
        rw [h2, (hc now st).1]
        exact Nat.le_succ _
      · show storedSuccesses st ≤ (markedRecord now st).successes
        have h2 : (markedRecord now st).successes = (getMetadataS now st).successes := rfl
        rw [h2, (hc now st).2]
  | complete now c gOk pOk =>
    cases c with
    | none => exact ⟨le_rfl, le_rfl⟩
    | some ts =>
      rcases stepStore_complete_cases now ts gOk pOk st with h | h <;> rw [h]
      · exact ⟨le_rfl, le_rfl⟩
      · constructor
        · show storedFailures st ≤ (getMetadataS now st).failures
          rw [(hc now st).1]
        · show storedSuccesses st ≤ (getMetadataS now st).successes + 1
          rw [(hc now st).2]
          exact Nat.le_succ _

/-- C9 — The counters `failures` and `successes` of a task's stored metadata
never decrease: each single `mark_failure` / `track_completion` operation
leaves both counters at least as large as the values it read, and hence along
any sequence of such operations both counters are monotonically
non-decreasing. -/
theorem claim9_counters_monotone :
    (∀ (st : MetaLookup) (op : MetaOp),
      storedFailures st ≤ storedFailures (stepStore st op) ∧
        storedSuccesses st ≤ storedSuccesses (stepStore st op)) ∧
    (∀ (ops : List MetaOp) (st : MetaLookup),
      storedFailures st ≤ storedFailures (ops.foldl stepStore st) ∧
        storedSuccesses st ≤ storedSuccesses (ops.foldl stepStore st)) := by
  refine ⟨stepStore_mono, ?_⟩
  intro ops
  induction ops with
  | nil => intro st; exact ⟨le_rfl, le_rfl⟩
  | cons op rest ih =>
    intro st
    have h1 := stepStore_mono st op
    have h2 := ih (stepStore st op)
    exact ⟨le_trans h1.1 h2.1, le_trans h1.2 h2.2⟩

/-- C5 — `calculate_delay_hours` is `min (24 * 2 ^ (failures - 1)) 168` for
`failures ≥ 1`, non-decreasing, equal to `24` at one failure and pinned to
`168` from four failures on. -/
theorem claim5_delay_hours :
    (∀ f, 1 ≤ f → calculate_delay_hours f = min (24 * 2 ^ (f - 1)) 168) ∧
    (∀ f g, f ≤ g → calculate_delay_hours f ≤ calculate_delay_hours g) ∧
    calculate_delay_hours 1 = 24 ∧
    (∀ f, 4 ≤ f → calculate_delay_hours f = 168) := by
  refine ⟨fun f _ => rfl, ?_, by decide, ?_⟩
  · intro f g h
    exact min_le_min
      (Nat.mul_le_mul_left 24 (Nat.pow_le_pow_right (by norm_num)
        (Nat.sub_le_sub_right h 1))) le_rfl
  · intro f h
    have h8 : (2 : Nat) ^ 3 ≤ 2 ^ (f - 1) :=
      Nat.pow_le_pow_right (by norm_num) (by omega)
    have : 168 ≤ 24 * 2 ^ (f - 1) := by
      calc (168 : Nat) ≤ 24 * 2 ^ 3 := by norm_num
        _ ≤ 24 * 2 ^ (f - 1) := Nat.mul_le_mul_left 24 h8
    simpa [calculate_delay_hours] using min_eq_right this

/-- Witness for C5 at concrete failure counts. -/
theorem claim5_witness :
    calculate_delay_hours 5 = min (24 * 2 ^ 4) 168 ∧ calculate_delay_hours 6 = 168 :=
  ⟨claim5_delay_hours.1 5 (by norm_num), claim5_delay_hours.2.2.2 6 (by norm_num)⟩

/-- C6 — `get_metadata` returns the decoded stored record when the metadata
comment exists and decodes, and otherwise — lookup error (which makes
`find_metadata_comment` yield `none`), no metadata comment, or a decode
failure — returns the fresh default record with zero counters and
`created = now`; no failure is surfaced (the function is total). -/
theorem claim6_get_metadata_defaults :
    ∀ (parse : PyStr → Option TaskMetadata) (now : Nat) (r : CommentsResult),
    (∀ c m, find_metadata_comment r = some c →
      parse (removeSeq metaHeader c.content) = some m →
      get_metadata parse now r = m) ∧
    (find_metadata_comment r = none → get_metadata parse now r = defaultMetadata now) ∧
    (∀ c, find_metadata_comment r = some c →
      parse (removeSeq metaHeader c.content) = none →
      get_metadata parse now r = defaultMetadata now) ∧
    (r = CommentsResult.apiError → find_metadata_comment r = none) ∧
    (defaultMetadata now).failures = 0 ∧ (defaultMetadata now).successes = 0 ∧
    (defaultMetadata now).created = now := by
  intro parse now r
  refine ⟨?_, ?_, ?_, ?_, rfl, rfl, rfl⟩
  · intro c m hc hp; simp [get_metadata, hc, hp]
  · intro h; simp [get_metadata, h]
  · intro c hc hp; simp [get_metadata, hc, hp]
  · intro h; subst h; rfl

/-- Witness for C6: a failing lookup and an undecodable comment both yield the
default record. -/
theorem claim6_witness :
    get_metadata (fun _ => none) 7 CommentsResult.apiError = defaultMetadata 7 ∧
    get_metadata (fun _ => none) 7
      (CommentsResult.ok [⟨0, "# METADATA\nbad".data⟩]) = defaultMetadata 7 :=
  ⟨(claim6_get_metadata_defaults (fun _ => none) 7 CommentsResult.apiError).2.1 rfl,
   (claim6_get_metadata_defaults (fun _ => none) 7
      (CommentsResult.ok [⟨0, "# METADATA\nbad".data⟩])).2.2.1
     ⟨0, "# METADATA\nbad".data⟩ (by decide) rfl⟩

/-- C10 — `update_metadata` returns the in-memory merged record even when the
comment-persist step fails (the exception is caught, the stored state is left
unchanged, and the returned record does not depend on whether persistence
succeeded); consequently `mark_failure` still returns the incremented count,
and a batch pass over a regular task still uses that count for its backoff and
content rewrite while the stored state keeps the old record. -/
theorem claim10_merge_returns_despite_persist_failure :
    (∀ (now : Nat) (st : MetaLookup) (uOk : Bool) (u : MetaUpdates),
      update_metadata now ⟨st, true, false, uOk⟩ u =
        Except.ok (dictUpdate (getMetadataS now st) u, st)) ∧
    (∀ (now : Nat) (st : MetaLookup) (gOk uOk : Bool) (u : MetaUpdates),
      (update_metadata now ⟨st, gOk, false, uOk⟩ u).map Prod.fst =
        (update_metadata now ⟨st, gOk, true, uOk⟩ u).map Prod.fst) ∧
    (∀ (now : Nat) (st : MetaLookup) (uOk : Bool),
      mark_failure now ⟨st, true, false, uOk⟩ =
        Except.ok ((getMetadataS now st).failures + 1, st)) ∧
    (∀ (now i : Nat) (c : PyStr) (st : MetaLookup),
      batch_reschedule_overdue now [(⟨i, c, 1⟩, ⟨st, true, false, true⟩)] =
        ⟨[⟨i, max (calculate_delay_hours ((getMetadataS now st).failures + 1) / 24) 0,
            (getMetadataS now st).failures + 1,
            rescheduleContent c ((getMetadataS now st).failures + 1)⟩],
          [(i, st)], false⟩) := by
  refine ⟨fun now st uOk u => rfl, ?_, fun now st uOk => rfl, fun now i c st => rfl⟩
  intro now st gOk uOk u
  cases gOk <;> rfl

/-- What the urgent loop applies for one task when nothing raises. -/
def urgentApplied (now : Nat) (p : TdTask × TaskEnv) : Applied :=
  ⟨p.1.id, 0, (getMetadataS now p.2.stored).failures + 1,
    rescheduleContent p.1.content ((getMetadataS now p.2.stored).failures + 1)⟩

/-- The stored metadata state of a task after its `mark_failure`. -/
def postStore (now : Nat) (p : TdTask × TaskEnv) : Nat × MetaLookup :=
  (p.1.id, if p.2.persistOk then MetaLookup.parsed (markedRecord now p.2.stored)
    else p.2.stored)

/-- The `RegData` the marking loop collects for one regular task when nothing
raises. -/
def regDataOf (now : Nat) (p : TdTask × TaskEnv) : RegData :=
  ⟨p.1, (getMetadataS now p.2.stored).failures + 1,
    get_success_ratio now (if p.2.persistOk then
      MetaLookup.parsed (markedRecord now p.2.stored) else p.2.stored),
    calculate_delay_hours ((getMetadataS now p.2.stored).failures + 1),
    p.2.updateOk,
    if p.2.persistOk then MetaLookup.parsed (markedRecord now p.2.stored)
      else p.2.stored⟩

lemma runUrgent_all_ok (now : Nat) (l : List (TdTask × TaskEnv))
    (h : ∀ p ∈ l, p.2.getTaskOk = true ∧ p.2.updateOk = true) :
    runUrgent now l = (l.map (urgentApplied now), l.map (postStore now), false) := by
  induction l with
  | nil => rfl
  | cons p rest ih =>
    obtain ⟨t, env⟩ := p
    have h1 := h (t, env) (List.mem_cons_self _ _)
    have hg : env.getTaskOk = true := h1.1
    have hu : env.updateOk = true := h1.2
    have h2 : ∀ q ∈ rest, q.2.getTaskOk = true ∧ q.2.updateOk = true :=
      fun q hq => h q (List.mem_cons_of_mem _ hq)
    simp [runUrgent, mark_failure_ok now env hg, reschedule_task, hu, ih h2,
      urgentApplied, postStore]

lemma markRegular_all_ok (now : Nat) (l : List (TdTask × TaskEnv))
    (h : ∀ p ∈ l, p.2.getTaskOk = true) :
    markRegular now l = (l.map (regDataOf now), false) := by
  induction l with
  | nil => rfl
  | cons p rest ih =>
    obtain ⟨t, env⟩ := p
    have hg : env.getTaskOk = true := h (t, env) (List.mem_cons_self _ _)
    have h2 : ∀ q ∈ rest, q.2.getTaskOk = true :=
      fun q hq => h q (List.mem_cons_of_mem _ hq)
    simp [markRegular, mark_failure_ok now env hg, ih h2, regDataOf]

lemma mem_insertDesc {x a : RegData} {l : List RegData} :
    x ∈ insertDesc a l ↔ x = a ∨ x ∈ l := by
  induction l with
  | nil => simp [insertDesc]
  | cons y ys ih =>
    simp only [insertDesc]
    split
    · simp only [List.mem_cons, ih]
      tauto
    · simp only [List.mem_cons]

lemma length_insertDesc (a : RegData) (l : List RegData) :
    (insertDesc a l).length = l.length + 1 := by
  induction l with
  | nil => rfl
  | cons y ys ih =>
    simp only [insertDesc]
    split
    · simp [ih]
    · simp

lemma mem_sortByRatioDesc {x : RegData} {l : List RegData} :
    x ∈ sortByRatioDesc l ↔ x ∈ l := by
  induction l with
  | nil => simp [sortByRatioDesc]
  | cons y ys ih =>
    simp only [sortByRatioDesc, mem_insertDesc, ih, List.mem_cons]

lemma length_sortByRatioDesc (l : List RegData) :
    (sortByRatioDesc l).length = l.length := by
  induction l with
  | nil => rfl
  | cons y ys ih => simp [sortByRatioDesc, length_insertDesc, ih]

lemma spreadRegular_all_ok (ds : List RegData) (h : ∀ d ∈ ds, d.updateOk = true) :
    ∀ k, (spreadRegular k ds).2 = false ∧
      (spreadRegular k ds).1.length = ds.length ∧
      ∀ i, ((spreadRegular k ds).1.map (fun a => a.dueOffset)).get? i =
        (ds.get? i).map (fun d => max (d.delayHours / 24) (k + i)) := by
  induction ds with
  | nil => intro k; refine ⟨rfl, rfl, fun i => ?_⟩; simp [spreadRegular]
  | cons d ds ih =>
    intro k
    have h1 := h d (List.mem_cons_self _ _)
    have h2 : ∀ e ∈ ds, e.updateOk = true := fun e he => h e (List.mem_cons_of_mem _ he)
    have ihk := ih h2 (k + 1)
    refine ⟨?_, ?_, ?_⟩
    · simp [spreadRegular, reschedule_task, h1, ihk.1]
    · simp [spreadRegular, reschedule_task, h1, ihk.2.1]
    · intro i
      cases i with
      | zero => simp [spreadRegular, reschedule_task, h1]
      | succ j =>
        have := ihk.2.2 j
        simp only [spreadRegular, reschedule_task, h1, if_true, List.map_cons,
          List.get?_cons_succ] at this ⊢
        rw [this]
        rw [Nat.add_assoc, Nat.add_comm 1 j]

lemma filter_partition_length (items : List (TdTask × TaskEnv)) :
    (items.filter (fun p => p.1.priority ≥ 3)).length +
      (items.filter (fun p => p.1.priority < 3)).length = items.length := by
  induction items with
  | nil => rfl
  | cons p rest ih =>
    simp only [List.filter_cons]
    by_cases hp : 3 ≤ p.1.priority
    · have hn : ¬ p.1.priority < 3 := by omega
      rw [if_pos (by simpa using hp), if_neg (by simpa using hn)]
      simp only [List.length_cons]
      omega
    · have hn : p.1.priority < 3 := by omega
      rw [if_neg (by simpa using hp), if_pos (by simpa using hn)]
      simp only [List.length_cons]
      omega

/-- C7 — Every overdue task of priority ≥ 3 (urgent tier) whose own external
calls succeed is, in one batch pass, marked failed (failure counter of the
record it read, plus one) and rescheduled to today (day offset 0),
unconditionally and regardless of its failure history. -/
theorem claim7_urgent_today :
    ∀ (now : Nat) (items : List (TdTask × TaskEnv)),
    (∀ p ∈ items, 3 ≤ p.1.priority → p.2.getTaskOk = true ∧ p.2.updateOk = true) →
    ∀ t env, (t, env) ∈ items → 3 ≤ t.priority →
    (⟨t.id, 0, (getMetadataS now env.stored).failures + 1,
      rescheduleContent t.content ((getMetadataS now env.stored).failures + 1)⟩ : Applied)
      ∈ (batch_reschedule_overdue now items).applied := by
  intro now items h t env hmem hpri
  have hhigh : ∀ p ∈ items.filter (fun p => p.1.priority ≥ 3),
      p.2.getTaskOk = true ∧ p.2.updateOk = true := by
    intro p hp
    rw [List.mem_filter] at hp
    exact h p hp.1 (by simpa using hp.2)
  have hrun := runUrgent_all_ok now _ hhigh
  have hmem2 : (t, env) ∈ items.filter (fun p => p.1.priority ≥ 3) := by
    rw [List.mem_filter]
    exact ⟨hmem, by simpa using hpri⟩
  have hmem3 : urgentApplied now (t, env) ∈
      (items.filter (fun p => p.1.priority ≥ 3)).map (urgentApplied now) :=
    List.mem_map_of_mem _ hmem2
  show urgentApplied now (t, env) ∈ (batch_reschedule_overdue now items).applied
  simp only [batch_reschedule_overdue, hrun]
  rcases hmr : markRegular now (items.filter (fun p => p.1.priority < 3)) with ⟨ds, b⟩
  cases b
  · exact List.mem_append_left _ hmem3
  · exact hmem3

/-- Witness for C7: a single fresh priority-4 task is applied at offset 0 with
failure count 1. -/
theorem claim7_witness :
    (⟨9, 0, 1, rescheduleContent ['T'] 1⟩ : Applied) ∈
      (batch_reschedule_overdue 3
        [(⟨9, ['T'], 4⟩, ⟨.noComment, true, true, true⟩)]).applied :=
  claim7_urgent_today 3 [(⟨9, ['T'], 4⟩, ⟨.noComment, true, true, true⟩)] (by decide)
    ⟨9, ['T'], 4⟩ ⟨.noComment, true, true, true⟩ (by decide) (by decide)

/-- C8 — In the spreading step the task at zero-based rank `i` of the sorted
regular list is assigned exactly `max(delay_hours // 24, i)` days from today;
and on the spec's example — three regular tasks with post-increment ratios
`[3, 1, 1/2]` and all post-increment failure counts 1 — a full batch pass
assigns day offsets `[1, 1, 2]`. -/
theorem claim8_spread_offsets :
    (∀ (ds : List RegData), (∀ d ∈ ds, d.updateOk = true) →
      ∀ i, ((spreadRegular 0 ds).1.map (fun a => a.dueOffset)).get? i =
        (ds.get? i).map (fun d => max (d.delayHours / 24) i)) ∧
    ((batch_reschedule_overdue 9
        [(⟨1, ['A'], 1⟩, ⟨.parsed ⟨0, 5, 0, none, none⟩, true, true, true⟩),
         (⟨2, ['B'], 1⟩, ⟨.parsed ⟨0, 1, 0, none, none⟩, true, true, true⟩),
         (⟨3, ['C'], 1⟩, ⟨.parsed ⟨0, 0, 0, none, none⟩, true, true, true⟩)]).applied.map
      (fun a => a.dueOffset)) = [1, 1, 2] := by
  constructor
  · intro ds h i
    simpa using (spreadRegular_all_ok ds h 0).2.2 i
  · norm_num [batch_reschedule_overdue, runUrgent, markRegular, mark_failure,
      update_metadata, getMetadataS, defaultMetadata, dictUpdate, get_success_ratio,
      calculate_delay_hours, sortByRatioDesc, insertDesc, spreadRegular, reschedule_task]

/-- Witness for C8 at a concrete one-element ranked list. -/
theorem claim8_witness :
    ((spreadRegular 0 [⟨⟨1, ['A'], 1⟩, 1, 1, 24, true, .noComment⟩]).1.map
      (fun a => a.dueOffset)).get? 0 =
      (([⟨⟨1, ['A'], 1⟩, 1, 1, 24, true, .noComment⟩] : List RegData).get? 0).map
        (fun d => max (d.delayHours / 24) 0) :=
  claim8_spread_offsets.1 [⟨⟨1, ['A'], 1⟩, 1, 1, 24, true, .noComment⟩]
    (by intro d hd; rw [List.mem_singleton] at hd; rw [hd]) 0

/-- C3 counterexample — two distinct fresh regular tasks (ids 1 and 2, both
`minDelayDays = 1`) are both assigned day offset 1 by one batch pass: the
offsets are not pairwise distinct, so distinct regular tasks do not always
land on distinct days. -/
theorem claim3_counterexample :
    ¬ (((batch_reschedule_overdue 5
        [(⟨1, ['A'], 1⟩, ⟨.noComment, true, true, true⟩),
         (⟨2, ['B'], 1⟩, ⟨.noComment, true, true, true⟩)]).applied.map
      (fun a => a.dueOffset)).Nodup) := by
  have h : ((batch_reschedule_overdue 5
      [(⟨1, ['A'], 1⟩, ⟨.noComment, true, true, true⟩),
       (⟨2, ['B'], 1⟩, ⟨.noComment, true, true, true⟩)]).applied.map
      (fun a => a.dueOffset)) = [1, 1] := by
    norm_num [batch_reschedule_overdue, runUrgent, markRegular, mark_failure,
      update_metadata, getMetadataS, defaultMetadata, dictUpdate, get_success_ratio,
      calculate_delay_hours, sortByRatioDesc, insertDesc, spreadRegular, reschedule_task]
  rw [h]
  decide

/-- C3 amended — the day-spreading step guarantees (a) the task at rank `i`
gets offset `max(minDelayDays, i)`, which is never below its own
`minDelayDays = delay_hours // 24`, and (b) never below its rank `i`; it does
NOT guarantee distinct days for distinct tasks. -/
theorem claim3_amended_spread_bounds :
    ∀ (ds : List RegData), (∀ d ∈ ds, d.updateOk = true) →
    ∀ i d, ds.get? i = some d →
      ((spreadRegular 0 ds).1.map (fun a => a.dueOffset)).get? i =
        some (max (d.delayHours / 24) i) ∧
      d.delayHours / 24 ≤ max (d.delayHours / 24) i ∧
      i ≤ max (d.delayHours / 24) i := by
  intro ds h i d hd
  have h0 := (spreadRegular_all_ok ds h 0).2.2 i
  rw [hd] at h0
  exact ⟨by simpa using h0, le_max_left _ _, le_max_right _ _⟩

/-- Witness for C3 amended at a concrete one-element ranked list. -/
theorem claim3_witness :
    ((spreadRegular 0 [⟨⟨2, ['B'], 1⟩, 2, 1, 48, true, .noComment⟩]).1.map
      (fun a => a.dueOffset)).get? 0 = some (max (48 / 24) 0) ∧
      48 / 24 ≤ max (48 / 24) 0 ∧ 0 ≤ max (48 / 24) 0 :=
  claim3_amended_spread_bounds [⟨⟨2, ['B'], 1⟩, 2, 1, 48, true, .noComment⟩]
    (by intro d hd; rw [List.mem_singleton] at hd; rw [hd]) 0
    ⟨⟨2, ['B'], 1⟩, 2, 1, 48, true, .noComment⟩ rfl

/-- C1 counterexample — a single overdue regular task with priority 1 and no
stored metadata is NOT rescheduled to today: its assigned day offset is not 0
(it is 1: `minDelayDays = 1` dominates rank 0). -/
theorem claim1_counterexample :
    ((batch_reschedule_overdue 5
      [(⟨1, ['A'], 1⟩, ⟨.noComment, true, true, true⟩)]).applied.map
      (fun a => a.dueOffset)) ≠ [0] := by decide

/-- C1 amended — for a batch containing a single overdue regular task with
priority 1 and no previously stored metadata (content carrying no retry marker
and no failure suffix), one pass stores failure count 1, assigns the due date
1 day from today (`max(minDelayDays 1, rank 0) = 1`), and leaves the content
unchanged — no retry marker and no `(Failed Nx)` suffix is added. -/
theorem claim1_amended_fresh_regular_singleton :
    ∀ (now i : Nat) (c : PyStr),
    removeChar retryMarker c = c → beforeSep failedSep c = c →
    batch_reschedule_overdue now [(⟨i, c, 1⟩, ⟨.noComment, true, true, true⟩)] =
      ⟨[⟨i, 1, 1, c⟩], [(i, .parsed ⟨1, 0, now, some now, none⟩)], false⟩ := by
  intro now i c h1 h2
  have hc : rescheduleContent c 1 = c := by
    simp [rescheduleContent, h1, h2]
  norm_num [batch_reschedule_overdue, runUrgent, markRegular, mark_failure,
    update_metadata, getMetadataS, defaultMetadata, dictUpdate, sortByRatioDesc,
    insertDesc, spreadRegular, reschedule_task, calculate_delay_hours, hc, markedRecord]

/-- Witness for C1 amended at a concrete task. -/
theorem claim1_witness :
    batch_reschedule_overdue 5 [(⟨1, ['A'], 1⟩, ⟨.noComment, true, true, true⟩)] =
      ⟨[⟨1, 1, 1, ['A']⟩], [(1, .parsed ⟨1, 0, 5, some 5, none⟩)], false⟩ :=
  claim1_amended_fresh_regular_singleton 5 1 ['A'] (by decide) (by decide)

/-- C2 counterexample — an error from the external update interface while
writing a task's new due date/content is NOT caught: with two urgent tasks
whose metadata calls succeed, a raising `update_task` on the first aborts the
batch (`aborted = true`), the second task is never processed (no applied
update, no mark), and the first task's already-persisted failure increment is
kept. -/
theorem claim2_counterexample :
    batch_reschedule_overdue 5
      [(⟨1, ['A'], 4⟩, ⟨.noComment, true, true, false⟩),
       (⟨2, ['B'], 4⟩, ⟨.noComment, true, true, true⟩)] =
      ⟨[], [(1, .parsed ⟨1, 0, 5, some 5, none⟩)], true⟩ := by decide

/-- C2 amended — errors while persisting a task's metadata are caught and the
batch continues: when every `get_task` and `update_task` call succeeds, no
pass aborts and every task in the batch receives an applied update, whatever
the persistence outcomes. An error while writing a task's new due date or
content (`update_task`), however, propagates and aborts the remainder of the
batch; the FailureTracker increment already committed for that task is not
rolled back (its post-mark record stays stored). -/
theorem claim2_amended_update_errors :
    (∀ (now : Nat) (items : List (TdTask × TaskEnv)),
      (∀ p ∈ items, p.2.getTaskOk = true ∧ p.2.updateOk = true) →
      (batch_reschedule_overdue now items).aborted = false ∧
      (batch_reschedule_overdue now items).applied.length = items.length) ∧
    (∀ (now : Nat) (t : TdTask) (st : MetaLookup),
      batch_reschedule_overdue now [(t, ⟨st, true, true, false⟩)] =
        ⟨[], [(t.id, .parsed (markedRecord now st))], true⟩) ∧
    (∀ (now : Nat) (st : MetaLookup),
      (markedRecord now st).failures = (getMetadataS now st).failures + 1) := by
  refine ⟨?_, ?_, fun now st => rfl⟩
  · intro now items hok
    have hhigh : ∀ p ∈ items.filter (fun p => p.1.priority ≥ 3),
        p.2.getTaskOk = true ∧ p.2.updateOk = true :=
      fun p hp => hok p (List.mem_filter.mp hp).1
    have hreg : ∀ p ∈ items.filter (fun p => p.1.priority < 3),
        p.2.getTaskOk = true :=
      fun p hp => (hok p (List.mem_filter.mp hp).1).1
    have hrun := runUrgent_all_ok now _ hhigh
    have hmark := markRegular_all_ok now _ hreg
    have hsort : ∀ d ∈ sortByRatioDesc
        ((items.filter (fun p => p.1.priority < 3)).map (regDataOf now)),
        d.updateOk = true := by
      intro d hd
      rw [mem_sortByRatioDesc] at hd
      obtain ⟨p, hp, rfl⟩ := List.mem_map.mp hd
      exact (hok p (List.mem_filter.mp hp).1).2
    have hspread := spreadRegular_all_ok _ hsort 0
    constructor
    · simp only [batch_reschedule_overdue, hrun, hmark]
      exact hspread.1
    · simp only [batch_reschedule_overdue, hrun, hmark, List.length_append,
        List.length_map, hspread.2.1, length_sortByRatioDesc]
      exact filter_partition_length items
  · intro now t st
    by_cases hp : 3 ≤ t.priority
    · simp [batch_reschedule_overdue, hp, runUrgent, markRegular, mark_failure,
        update_metadata, reschedule_task, markedRecord]
    · have hl : t.priority < 3 := by omega
      simp [batch_reschedule_overdue, hp, hl, runUrgent, markRegular, mark_failure,
        update_metadata, reschedule_task, markedRecord, sortByRatioDesc, insertDesc,
        spreadRegular]

/-- Witness for C2 amended: a pass whose only error is a failing metadata
persist does not abort and still applies the task's update. -/
theorem claim2_witness :
    (batch_reschedule_overdue 4
      [(⟨1, ['A'], 1⟩, ⟨.noComment, true, false, true⟩)]).aborted = false ∧
    (batch_reschedule_overdue 4
      [(⟨1, ['A'], 1⟩, ⟨.noComment, true, false, true⟩)]).applied.length = 1 :=
  claim2_amended_update_errors.1 4 [(⟨1, ['A'], 1⟩, ⟨.noComment, true, false, true⟩)]
    (by decide)

/-- C4 — `track_completion` is idempotent per completion timestamp: it is a
no-op for a task with no completion timestamp; and for a task with one, a
successful call yields a stored state whose `successes` exceeds the previous
stored value by at most one and on which every further call with the same
completion timestamp returns without changing the stored state. -/
theorem claim4_track_completion_idempotent :
    (∀ (now : Nat) (env : TaskEnv), track_completion now none env = Except.ok env.stored) ∧
    (∀ (now ts : Nat) (env : TaskEnv), env.getTaskOk = true → env.persistOk = true →
      ∃ st2, track_completion now (some ts) env = Except.ok st2 ∧
        storedSuccesses st2 ≤ storedSuccesses env.stored + 1 ∧
        ∀ (now2 : Nat) (env2 : TaskEnv), env2.stored = st2 →
          track_completion now2 (some ts) env2 = Except.ok st2) := by
  constructor
  · intro now env; rfl
  · intro now ts env hg hpk
    by_cases heq : (getMetadataS now env.stored).last_completion = some ts
    · refine ⟨env.stored, by simp [track_completion, heq], Nat.le_succ _, ?_⟩
      intro now2 env2 he2
      cases hst : env.stored with
      | parsed m =>
        rw [hst] at heq
        simp only [getMetadataS] at heq
        simp [track_completion, he2, hst, getMetadataS, heq]
      | lookupError => rw [hst] at heq; simp [getMetadataS, defaultMetadata] at heq
      | noComment => rw [hst] at heq; simp [getMetadataS, defaultMetadata] at heq
      | unparsable => rw [hst] at heq; simp [getMetadataS, defaultMetadata] at heq
    · refine ⟨MetaLookup.parsed (dictUpdate (getMetadataS now env.stored)
        ⟨none, some ((getMetadataS now env.stored).successes + 1), none, some ts⟩),
        ?_, ?_, ?_⟩
      · simp [track_completion, heq, update_metadata, hg, hpk]
      · have hc := (getMetadataS_counters now env.stored).2
        show (dictUpdate (getMetadataS now env.stored)
          ⟨none, some ((getMetadataS now env.stored).successes + 1), none, some ts⟩).successes
          ≤ storedSuccesses env.stored + 1
        have he : (dictUpdate (getMetadataS now env.stored)
            ⟨none, some ((getMetadataS now env.stored).successes + 1), none,
              some ts⟩).successes = (getMetadataS now env.stored).successes + 1 := rfl
        rw [he, hc]
      · intro now2 env2 he2
        simp [track_completion, he2, getMetadataS, dictUpdate]

/-- Witness for C4: tracking a fresh completion once, then replaying it. -/
theorem claim4_witness :
    ∃ st2, track_completion 1 (some 3) ⟨.noComment, true, true, true⟩ = Except.ok st2 ∧
      storedSuccesses st2 ≤ storedSuccesses MetaLookup.noComment + 1 ∧
      ∀ (now2 : Nat) (env2 : TaskEnv), env2.stored = st2 →
        track_completion now2 (some 3) env2 = Except.ok st2 :=
  claim4_track_completion_idempotent.2 1 3 ⟨.noComment, true, true, true⟩ rfl rfl

/-- Consistency of the two `get_metadata` levels: the comment-level function
equals the summary-level one through `lookupOf`. -/
theorem get_metadata_lookupOf (parse : PyStr → Option TaskMetadata) (now : Nat)
    (r : CommentsResult) :
    get_metadata parse now r = getMetadataS now (lookupOf parse r) := by
  cases r with
  | apiError => rfl
  | ok cs =>
    cases hf : cs.find? (fun c => startsWith c.content metaMarker) with
    | none => simp [get_metadata, lookupOf, find_metadata_comment, hf, getMetadataS]
    | some c =>
      cases hparse : parse (removeSeq metaHeader c.content) with
      | none =>
        simp [get_metadata, lookupOf, find_metadata_comment, hf, hparse, getMetadataS]
      | some m =>
        simp [get_metadata, lookupOf, find_metadata_comment, hf, hparse, getMetadataS]
